import Mathlib

/-!
Shallow embedding of the CPSC559 blockchain node: the ledger operations of
`blockchain.py` (`new_transaction`, `new_block`, `propose_block`,
`adjust_difficulty`, `resolve_conflicts`, `valid_chain`, `valid_proof`,
`cumulative_work`, `elect_leader`) and the request dispatcher of
`network.py` (`handle_client_connection`).

Python dicts for transactions and blocks become Lean structures; the node's
mutable attributes become an explicit `NodeState` threaded through each
operation.  SHA-256 and ECDSA are opaque to every property below, so the
development is parametrised by a `Crypto` record holding the block-hash
function, the hex digest of a string, and signature verification; concrete
instantiations are supplied where a closed evaluation is needed.  Network
replies are passed in as explicit data (a vote per peer, a chain per peer),
matching the one-request/one-reply structure of `send_message`.
-/

namespace BC

/-- A transaction dict `{id, sender, recipient, amount, status}`
(`blockchain.py`, `new_transaction`). -/
structure Tx where
  id : String
  sender : String
  recipient : String
  amount : Int
  status : String
deriving DecidableEq, Repr

/-- A block dict `{index, timestamp, transactions, nonce, previous_hash,
difficulty}` (`blockchain.py`). Timestamps are modelled as integers: every
property below depends only on how timestamps compare, never on their
fractional part. -/
structure Block where
  index : Nat
  timestamp : Int
  transactions : List Tx
  nonce : Nat
  previous_hash : String
  difficulty : Nat
deriving DecidableEq, Repr

/-- The cryptographic primitives the node uses, kept abstract: `hashBlock`
models `Blockchain.hash` (SHA-256 of canonical JSON of a block), `shaHex`
models `hashlib.sha256(...).hexdigest()` on a string, and `verify` models
ECDSA verification of a signature under a public key against a message
(true exactly when `ecdsa.VerifyingKey.verify` succeeds without raising). -/
structure Crypto where
  hashBlock : Block → String
  shaHex : String → String
  verify : String → String → String → Bool

/-- The mutable attributes of a `Blockchain` instance (`__init__`). -/
structure NodeState where
  node_address : Option String
  current_leader : Option String
  chain : List Block
  current_transactions : List Tx
  nodes : List String
  seen_transactions : List String
  seen_blocks : List String
  difficulty : Nat
deriving DecidableEq, Repr

/-- The string `"0" * n` used by `valid_proof`. -/
def zeros (n : Nat) : String :=
  String.mk (List.replicate n '0')

/-- `Blockchain.valid_proof`: the hex digest of
`f'{last_nonce}{nonce}{last_hash}'` must begin with `difficulty` zero
characters. -/
def validProof (c : Crypto) (lastNonce nonce : Nat) (lastHash : String)
    (difficulty : Nat) : Bool :=
  (c.shaHex (toString lastNonce ++ toString nonce ++ lastHash)).take difficulty
    == zeros difficulty

/-- `Blockchain.create_genesis_block` (the difficulty field is filled from
the node's current difficulty, 4 at boot). -/
def genesisBlock (difficulty : Nat) : Block :=
  { index := 1, timestamp := 1234567890, transactions := [], nonce := 100,
    previous_hash := "1", difficulty := difficulty }

/-- `Blockchain.last_block`, i.e. `chain[-1]`.  The chain always holds at
least the genesis block, so the default is never reached from a boot state. -/
def lastBlock (chain : List Block) : Block :=
  chain.getLastD (genesisBlock 4)

/-- `Blockchain.__init__`: empty pools and seen sets, difficulty 4, the
genesis block appended and its hash recorded in `seen_blocks`. -/
def initState (c : Crypto) : NodeState :=
  { node_address := none, current_leader := none,
    chain := [genesisBlock 4], current_transactions := [], nodes := [],
    seen_transactions := [], seen_blocks := [c.hashBlock (genesisBlock 4)],
    difficulty := 4 }

/-- `Blockchain.cumulative_work`: the sum of `difficulty` over a chain. -/
def cumulativeWork (chain : List Block) : Nat :=
  (chain.map Block.difficulty).sum

/-- The walk of `Blockchain.valid_chain` from position 1 on, carrying the
previous block: each block's `previous_hash` must equal the hash of its
predecessor and its nonce must satisfy `valid_proof` at the block's own
difficulty. -/
def validChainFrom (c : Crypto) (last : Block) : List Block → Bool
  | [] => true
  | b :: rest =>
      (b.previous_hash == c.hashBlock last)
        && validProof c last.nonce b.nonce (c.hashBlock last) b.difficulty
        && validChainFrom c b rest

/-- `Blockchain.valid_chain`: position 0 is taken as trusted start; the
callers guard against the empty chain (Python would raise on `chain[0]`),
so the `[]` case is never reached from the code paths modelled here. -/
def validChain (c : Crypto) : List Block → Bool
  | [] => true
  | b :: rest => validChainFrom c b rest

/-- `Blockchain.adjust_difficulty`: no-op on chains shorter than 2; else
compare the timestamp gap of the last two blocks against the block time
target (10 s, fixed at `__init__`): gap below 10 raises difficulty by 1,
gap above 20 with difficulty above 4 lowers it by 1. -/
def adjustDifficulty (st : NodeState) : NodeState :=
  match st.chain.reverse with
  | last :: prev :: _ =>
      if last.timestamp - prev.timestamp < 10 then
        { st with difficulty := st.difficulty + 1 }
      else if 20 < last.timestamp - prev.timestamp ∧ 4 < st.difficulty then
        { st with difficulty := st.difficulty - 1 }
      else st
  | _ => st

/-- The approval count of `Blockchain.propose_block`: the leader's own vote
plus one for every peer whose reply exists and carries `vote = "approve"`.
`net` gives each peer's reply vote field (`none`: no reply, or a reply
without a vote). -/
def countApprovals (nodes : List String) (net : String → Option String) : Nat :=
  1 + (nodes.filter (fun n => net n == some "approve")).length

/-- The quorum of `Blockchain.propose_block`:
`total_nodes // 2 + 1` where `total_nodes = len(self.nodes) + 1`. -/
def quorumThreshold (numPeers : Nat) : Nat :=
  (numPeers + 1) / 2 + 1

/-- Outcome of `Blockchain.propose_block`: the updated node state, the
returned block (`none` on abort), and whether the `BLOCK_COMMIT` fanout to
every peer was performed. -/
structure ProposeResult where
  state : NodeState
  result : Option Block
  fanout : Bool
deriving Repr

/-- `Blockchain.propose_block`: collect votes from every peer, and on
approvals reaching the quorum send `BLOCK_COMMIT` to every peer, append the
block, clear the pending pool, record the block hash, and adjust
difficulty; otherwise leave the state untouched and return `None`. -/
def proposeBlock (c : Crypto) (st : NodeState) (b : Block)
    (net : String → Option String) : ProposeResult :=
  let approvals := countApprovals st.nodes net
  if quorumThreshold st.nodes.length ≤ approvals then
    let bh := c.hashBlock b
    let sb := if bh ∈ st.seen_blocks then st.seen_blocks else st.seen_blocks ++ [bh]
    let st1 : NodeState :=
      { st with
        chain := st.chain ++ [b]
        current_transactions := []
        seen_blocks := sb }
    { state := adjustDifficulty st1, result := some b, fanout := true }
  else
    { state := st, result := none, fanout := false }

/-- `Blockchain.new_block`: leader-only; refuses an empty pool; sets
`status = 'success'` on the pooled transaction dicts themselves (the block
then shares those dicts via the shallow `list.copy()`), builds the candidate
block, and either proposes it (`auto_broadcast=True`) or appends it
directly.  `now` stands for `time()`. -/
def newBlock (c : Crypto) (st : NodeState) (nonce : Nat)
    (previousHash : Option String) (net : String → Option String)
    (now : Int) (autoBroadcast : Bool) : NodeState × Option Block :=
  if st.current_leader ≠ st.node_address then (st, none)
  else if st.current_transactions = [] then (st, none)
  else
    let marked := st.current_transactions.map fun tx => { tx with status := "success" }
    let st1 := { st with current_transactions := marked }
    let b : Block :=
      { index := st1.chain.length + 1, timestamp := now, transactions := marked,
        nonce := nonce,
        previous_hash := previousHash.getD (c.hashBlock (lastBlock st1.chain)),
        difficulty := st1.difficulty }
    if autoBroadcast then
      let r := proposeBlock c st1 b net
      (r.state, r.result)
    else
      let bh := c.hashBlock b
      let sb := if bh ∈ st1.seen_blocks then st1.seen_blocks else st1.seen_blocks ++ [bh]
      let st2 : NodeState :=
        { st1 with
          chain := st1.chain ++ [b]
          current_transactions := []
          seen_blocks := sb }
      (adjustDifficulty st2, some b)

/-- Outcome of `Blockchain.new_transaction`: updated state, the returned
next-block index, and whether the transaction was gossiped
(`broadcast_message` reached). -/
structure SubmitResult where
  state : NodeState
  ret : Nat
  gossiped : Bool
deriving Repr

/-- `Blockchain.new_transaction`: reject sender `"0"`; otherwise take the
supplied transaction or build a fresh one (with `freshId` standing for
`uuid.uuid4()` and status `pending`); skip ids already seen or already
pending; else append to the pool and, when `auto_broadcast`, gossip.  Every
path returns `last_block.index + 1`. -/
def newTransaction (st : NodeState) (sender recipient : String) (amount : Int)
    (freshId : String) (transaction : Option Tx) (autoBroadcast : Bool) :
    SubmitResult :=
  let ret := (lastBlock st.chain).index + 1
  if sender = "0" then { state := st, ret := ret, gossiped := false }
  else
    let tx := transaction.getD
      { id := freshId, sender := sender, recipient := recipient,
        amount := amount, status := "pending" }
    if tx.id ∈ st.seen_transactions then { state := st, ret := ret, gossiped := false }
    else if st.current_transactions.any (fun t => t.id == tx.id) then
      { state := st, ret := ret, gossiped := false }
    else
      { state := { st with current_transactions := st.current_transactions ++ [tx] },
        ret := ret, gossiped := autoBroadcast }

/-- The `NEW_TRANSACTION` branch of `handle_client_connection`
(`network.py`): when the message carries a transaction object, the handler
extracts only `sender`, `recipient`, `amount` (requiring the strings
non-empty, mirroring Python truthiness) and calls
`blockchain.new_transaction(sender, recipient, amount)` — the incoming
`id` is NOT forwarded, so `new_transaction` mints `freshId`. -/
def handleNewTransaction (st : NodeState) (tx : Tx) (freshId : String) :
    NodeState :=
  if tx.sender ≠ "" ∧ tx.recipient ≠ "" then
    (newTransaction st tx.sender tx.recipient tx.amount freshId none true).state
  else st

/-- `canonical_transaction` (`blockchain.py`): the identity of a transaction
for equality purposes, every field except `status`. -/
def canonicalTx (tx : Tx) : String × String × String × Int :=
  (tx.id, tx.sender, tx.recipient, tx.amount)

/-- The scan of `Blockchain.resolve_conflicts` over the peers' `GET_CHAIN`
replies: a reply chain is a candidate when it is present, non-empty (Python
truthiness of `chain`), passes `valid_chain`, and its cumulative work
strictly exceeds the best work seen so far (which starts at the local
chain's work). -/
def scanChains (c : Crypto) : List (Option (List Block)) → Nat →
    Option (List Block) → Nat × Option (List Block)
  | [], w, best => (w, best)
  | none :: rs, w, best => scanChains c rs w best
  | some ch :: rs, w, best =>
      if ch ≠ [] ∧ validChain c ch = true ∧ w < cumulativeWork ch then
        scanChains c rs (cumulativeWork ch) (some ch)
      else scanChains c rs w best

/-- `Blockchain.resolve_conflicts`: adopt the best strictly-heavier valid
peer chain if any, dropping from the pending pool every transaction whose
canonical form appears in the adopted chain; return whether a replacement
occurred.  `responses` lists each peer's `GET_CHAIN` reply (`none` for a
failed call or a reply without a chain). -/
def resolveConflicts (c : Crypto) (st : NodeState)
    (responses : List (Option (List Block))) : NodeState × Bool :=
  match (scanChains c responses (cumulativeWork st.chain) none).2 with
  | some ch =>
      let confirmed := (ch.map fun b => b.transactions.map canonicalTx).flatten
      let pool := st.current_transactions.filter fun tx =>
        decide (canonicalTx tx ∉ confirmed)
      ({ st with chain := ch, current_transactions := pool }, true)
  | none => (st, false)

/-- A VRF submission `{public_key, signature, output_hash, candidate}`
(`elect_leader`); `signature` models the decoded raw signature bytes. -/
structure Submission where
  public_key : String
  signature : String
  output_hash : String
  candidate : String
deriving DecidableEq, Repr

/-- The verification step of `elect_leader` on one submission: the signature
verifies under the claimed public key against the seed, and the hex digest
of the raw signature equals the claimed `output_hash`. -/
def submissionValid (c : Crypto) (seed : String) (s : Submission) : Bool :=
  c.verify s.public_key s.signature seed && (c.shaHex s.signature == s.output_hash)

/-- The surviving `(candidate, submission)` pairs after `elect_leader`
discards invalid submissions; the list order models the iteration order of
the `vrf_submissions` dict. -/
def validSubmissions (c : Crypto) (seed : String)
    (subs : List (String × Submission)) : List (String × Submission) :=
  subs.filter fun p => submissionValid c seed p.2

/-- The selection step of `elect_leader`: `valid_candidates.sort(key=output
hash)` followed by taking entry 0.  The stable sort plus head is the
earliest entry among those with the lexicographically smallest
`output_hash`, computed here as a left fold. -/
def minByHash : List (String × Submission) → Option (String × Submission)
  | [] => none
  | v :: vs =>
      some (vs.foldl (fun best p =>
        if p.2.output_hash < best.2.output_hash then p else best) v)

/-- The decision core of `Blockchain.elect_leader`, given the collected
submissions keyed by candidate: the candidate of the smallest valid
`output_hash`, or `none` when no submission verifies. -/
def electLeader (c : Crypto) (seed : String)
    (subs : List (String × Submission)) : Option String :=
  match minByHash (validSubmissions c seed subs) with
  | some p => some p.1
  | none => none

/-- The state update of `elect_leader`: `self.current_leader` is set to the
election outcome (`None` when no submission verifies). -/
def electLeaderUpd (c : Crypto) (seed : String)
    (subs : List (String × Submission)) (st : NodeState) : NodeState :=
  { st with current_leader := electLeader c seed subs }

/-- The branch taken by `handle_client_connection` (`network.py`) on a
message's `type` field: the chain of `if msg_type == ...` tests, in source
order, falling through to the unknown-type reply. -/
inductive DispatchBranch
  | getChain
  | registerNode
  | newTransactionB
  | newBlockB
  | getNodes
  | getPending
  | unknown
deriving DecidableEq, Repr

/-- Branch selection of `handle_client_connection` on `msg_type`. -/
def dispatchBranch (msgType : String) : DispatchBranch :=
  if msgType = "GET_CHAIN" then DispatchBranch.getChain
  else if msgType = "REGISTER_NODE" then DispatchBranch.registerNode
  else if msgType = "NEW_TRANSACTION" then DispatchBranch.newTransactionB
  else if msgType = "NEW_BLOCK" then DispatchBranch.newBlockB
  else if msgType = "GET_NODES" then DispatchBranch.getNodes
  else if msgType = "GET_PENDING" then DispatchBranch.getPending
  else DispatchBranch.unknown

/-- The keys of the JSON reply each dispatcher branch sends back
(`handle_client_connection`): no branch ever emits a `vote` key — the
unknown-type fallback replies
`{status: "Error", message: "Unknown message type."}`. -/
def replyKeys : DispatchBranch → List String
  | DispatchBranch.getChain => ["type", "chain"]
  | DispatchBranch.registerNode => ["status", "message"]
  | DispatchBranch.newTransactionB => ["status", "message"]
  | DispatchBranch.newBlockB => ["status", "message"]
  | DispatchBranch.getNodes => ["type", "nodes"]
  | DispatchBranch.getPending => ["type", "pending"]
  | DispatchBranch.unknown => ["status", "message"]

/-- Modelled from the spec: the follower-side `BLOCK_PROPOSE` handler the
spec's §4.3/§4.6 describe, which the sources lack (no dispatcher branch
handles `BLOCK_PROPOSE`; only its caller `Blockchain.propose_block`
exists).  A follower replies `approve` iff the proposed block's index is
`last.index + 1`, its `previous_hash` is `hash_block(last)`, and
`valid_proof(last.nonce, block.nonce, hash_block(last), block.difficulty)`
holds against the node's current last block; otherwise `reject`. -/
def handleBlockPropose (c : Crypto) (st : NodeState) (b : Block) : String :=
  let last := lastBlock st.chain
  if b.index = last.index + 1 ∧ b.previous_hash = c.hashBlock last
      ∧ validProof c last.nonce b.nonce (c.hashBlock last) b.difficulty = true
  then "approve" else "reject"

/-- A concrete `Crypto` used for closed evaluations: the block hash is
index and nonce, the hex digest is constantly 64 zeros (so proof-of-work
holds at any difficulty up to 64), and a signature verifies exactly when
the claimed public key is the string `"k"`. -/
def sampleCrypto : Crypto :=
  { hashBlock := fun b => toString b.index ++ "|" ++ toString b.nonce,
    shaHex := fun _ => zeros 64,
    verify := fun pk _ _ => pk == "k" }

/-- A single-block chain with contents far from the fixed genesis. -/
def oddBlock : Block :=
  { index := 42, timestamp := -5, transactions := [], nonce := 0,
    previous_hash := "garbage", difficulty := 9 }

/-- A pending transaction used in the concrete scenarios. -/
def sampleTx : Tx :=
  { id := "t1", sender := "alice", recipient := "bob", amount := 7,
    status := "pending" }

/-- A leader node `A` with one peer `B` and one pending transaction. -/
def leaderState : NodeState :=
  { node_address := some "A", current_leader := some "A",
    chain := [genesisBlock 4], current_transactions := [sampleTx],
    nodes := ["B"], seen_transactions := [], seen_blocks := [],
    difficulty := 4 }

/-- A block mined 1 second after genesis (below the 10 s target). -/
def fastBlock : Block :=
  { index := 2, timestamp := 1234567891, transactions := [], nonce := 7,
    previous_hash := "1|100", difficulty := 4 }

/-- A chain of two blocks whose last gap is 1 second (below the 10 s
target), for exercising the difficulty rule. -/
def fastState : NodeState :=
  { node_address := none, current_leader := none,
    chain := [genesisBlock 4, fastBlock],
    current_transactions := [], nodes := [], seen_transactions := [],
    seen_blocks := [], difficulty := 4 }

end BC

namespace BC

theorem adjustDifficulty_chain (st : NodeState) :
    (adjustDifficulty st).chain = st.chain := by
  unfold adjustDifficulty
  split
  · split
    · rfl
    · split <;> rfl
  · rfl

/-- C10: `valid_chain` accepts every chain of exactly one block — the walk
starts at position 1, so position 0 is never inspected and any single-block
chain (not only the fixed genesis) passes the validity gate; consequently
`resolve_conflicts` adopts such a chain whenever its work beats the local
chain's. -/
theorem valid_chain_singleton (c : Crypto) (b : Block) (st : NodeState)
    (h : cumulativeWork st.chain < b.difficulty) :
    validChain c [b] = true
      ∧ (resolveConflicts c st [some [b]]).2 = true
      ∧ (resolveConflicts c st [some [b]]).1.chain = [b] := by
  have hv : validChain c [b] = true := rfl
  have hc : cumulativeWork [b] = b.difficulty := by
    simp [cumulativeWork]
  refine ⟨hv, ?_, ?_⟩ <;>
    simp [resolveConflicts, scanChains, hv, hc, h]

/-- Witness for C10: the gate passes a block with index 42, previous hash
`"garbage"` and a negative timestamp, and a fresh node adopts it. -/
theorem valid_chain_singleton_witness :
    validChain sampleCrypto [oddBlock] = true
      ∧ (resolveConflicts sampleCrypto (initState sampleCrypto) [some [oddBlock]]).2 = true
      ∧ (resolveConflicts sampleCrypto (initState sampleCrypto) [some [oddBlock]]).1.chain = [oddBlock] :=
  valid_chain_singleton sampleCrypto oddBlock (initState sampleCrypto) (by decide)

/-- C9: `new_transaction` with sender `"0"` leaves the whole node state
unchanged (pool, chain, seen sets), gossips nothing, and returns
`last_block.index + 1` — the same next-block index every other submission
path returns. -/
theorem new_transaction_rejects_coinbase (st : NodeState) (r : String)
    (a : Int) (fid : String) (tr : Option Tx) :
    (newTransaction st "0" r a fid tr true).state = st
      ∧ (newTransaction st "0" r a fid tr true).gossiped = false
      ∧ (newTransaction st "0" r a fid tr true).ret = (lastBlock st.chain).index + 1
      ∧ (∀ s rec amt f t ab,
          (newTransaction st s rec amt f t ab).ret = (lastBlock st.chain).index + 1) := by
  refine ⟨by simp [newTransaction], by simp [newTransaction],
    by simp [newTransaction], ?_⟩
  intro s rec amt f t ab
  unfold newTransaction
  dsimp only
  split
  · rfl
  · split
    · rfl
    · split <;> rfl

/-- The spec-modelled `BLOCK_PROPOSE` handler replies `approve` exactly
when the proposed block's index is `last.index + 1`, its `previous_hash`
matches the hash of the node's last block, and the proof of work checks at
the block's difficulty; in every other case it replies `reject`.  (This is
what the spec demands of a follower; the sources contain no such branch —
see `block_propose_unhandled`.) -/
theorem handle_block_propose_approve_iff (c : Crypto) (st : NodeState)
    (b : Block) :
    (handleBlockPropose c st b = "approve" ↔
        (b.index = (lastBlock st.chain).index + 1
          ∧ b.previous_hash = c.hashBlock (lastBlock st.chain)
          ∧ validProof c (lastBlock st.chain).nonce b.nonce
              (c.hashBlock (lastBlock st.chain)) b.difficulty = true))
      ∧ (handleBlockPropose c st b = "approve"
          ∨ handleBlockPropose c st b = "reject") := by
  constructor
  · by_cases h : b.index = (lastBlock st.chain).index + 1
        ∧ b.previous_hash = c.hashBlock (lastBlock st.chain)
        ∧ validProof c (lastBlock st.chain).nonce b.nonce
            (c.hashBlock (lastBlock st.chain)) b.difficulty = true <;>
      simp [handleBlockPropose, h]
  · by_cases h : b.index = (lastBlock st.chain).index + 1
        ∧ b.previous_hash = c.hashBlock (lastBlock st.chain)
        ∧ validProof c (lastBlock st.chain).nonce b.nonce
            (c.hashBlock (lastBlock st.chain)) b.difficulty = true <;>
      simp [handleBlockPropose, h]

/-- C1: the leader appends the candidate block (returning it and sending
the `BLOCK_COMMIT` fanout) exactly when the approvals — its own vote plus
every peer replying `vote = "approve"` — reach the quorum
`(len(nodes)+1) // 2 + 1`, which is exactly "strictly more than half of the
cluster approved". -/
theorem propose_block_quorum (c : Crypto) (st : NodeState) (b : Block)
    (net : String → Option String) :
    (((proposeBlock c st b net).state.chain = st.chain ++ [b]
        ∧ (proposeBlock c st b net).result = some b
        ∧ (proposeBlock c st b net).fanout = true)
      ↔ quorumThreshold st.nodes.length ≤ countApprovals st.nodes net)
    ∧ (quorumThreshold st.nodes.length ≤ countApprovals st.nodes net
      ↔ st.nodes.length + 1 < 2 * countApprovals st.nodes net) := by
  constructor
  · by_cases h : quorumThreshold st.nodes.length ≤ countApprovals st.nodes net
    · simp [proposeBlock, h, adjustDifficulty_chain]
    · simp [proposeBlock, h]
  · unfold quorumThreshold
    omega

/-- C8: `adjust_difficulty` raises difficulty by 1 when the last two
blocks are less than 10 s apart, lowers it by 1 when they are more than
20 s apart and difficulty exceeds 4, and otherwise leaves it unchanged;
hence difficulty never drops below 4 and moves by at most 1 per
adjustment. -/
theorem adjust_difficulty_rule (st : NodeState) (prev last : Block)
    (rest : List Block) (h : st.chain = rest ++ [prev, last])
    (h4 : 4 ≤ st.difficulty) :
    (adjustDifficulty st).difficulty =
      (if last.timestamp - prev.timestamp < 10 then st.difficulty + 1
       else if 20 < last.timestamp - prev.timestamp ∧ 4 < st.difficulty
       then st.difficulty - 1 else st.difficulty)
    ∧ 4 ≤ (adjustDifficulty st).difficulty
    ∧ ((adjustDifficulty st).difficulty = st.difficulty + 1
        ∨ (adjustDifficulty st).difficulty + 1 = st.difficulty
        ∨ (adjustDifficulty st).difficulty = st.difficulty) := by
  have hrev : st.chain.reverse = last :: prev :: rest.reverse := by
    rw [h]
    simp
  have hd : (adjustDifficulty st).difficulty =
      (if last.timestamp - prev.timestamp < 10 then st.difficulty + 1
       else if 20 < last.timestamp - prev.timestamp ∧ 4 < st.difficulty
       then st.difficulty - 1 else st.difficulty) := by
    unfold adjustDifficulty
    rw [hrev]
    dsimp only
    split
    · rfl
    · split <;> rfl
  refine ⟨hd, ?_, ?_⟩ <;> rw [hd] <;> split <;> try split
  all_goals omega

/-- Witness for C8: a 1-second gap between genesis and the next block
raises the difficulty from 4 to 5. -/
theorem adjust_difficulty_rule_witness :
    ((adjustDifficulty fastState).difficulty =
      (if fastBlock.timestamp - (genesisBlock 4).timestamp < 10
       then fastState.difficulty + 1
       else if 20 < fastBlock.timestamp - (genesisBlock 4).timestamp
              ∧ 4 < fastState.difficulty
       then fastState.difficulty - 1 else fastState.difficulty)
    ∧ 4 ≤ (adjustDifficulty fastState).difficulty
    ∧ ((adjustDifficulty fastState).difficulty = fastState.difficulty + 1
        ∨ (adjustDifficulty fastState).difficulty + 1 = fastState.difficulty
        ∨ (adjustDifficulty fastState).difficulty = fastState.difficulty)) :=
  adjust_difficulty_rule fastState (genesisBlock 4) fastBlock []
    (by decide) (by decide)

theorem scanChains_inv (c : Crypto) (W0 : Nat)
    (rs : List (Option (List Block))) :
    ∀ (w : Nat) (best : Option (List Block)),
      ((best = none ∧ w = W0)
        ∨ (∃ ch, best = some ch ∧ validChain c ch = true
            ∧ cumulativeWork ch = w ∧ W0 < w)) →
      (((scanChains c rs w best).2 = none ∧ (scanChains c rs w best).1 = W0)
        ∨ (∃ ch, (scanChains c rs w best).2 = some ch
            ∧ validChain c ch = true
            ∧ cumulativeWork ch = (scanChains c rs w best).1
            ∧ W0 < (scanChains c rs w best).1)) := by
  induction rs with
  | nil =>
    intro w best h
    simp only [scanChains]
    rcases h with ⟨h1, h2⟩ | ⟨ch, h1, h2, h3, h4⟩
    · exact Or.inl ⟨h1, h2⟩
    · exact Or.inr ⟨ch, h1, h2, h3, h4⟩
  | cons r rs ih =>
    intro w best h
    match r with
    | none =>
      simp only [scanChains]
      exact ih w best h
    | some ch =>
      by_cases hc : ch ≠ [] ∧ validChain c ch = true ∧ w < cumulativeWork ch
      · simp only [scanChains, if_pos hc]
        apply ih
        right
        refine ⟨ch, rfl, hc.2.1, rfl, ?_⟩
        have hW0w : W0 ≤ w := by
          rcases h with ⟨_, h2⟩ | ⟨_, _, _, _, h4⟩
          · omega
          · omega
        exact lt_of_le_of_lt hW0w hc.2.2
      · simp only [scanChains, if_neg hc]
        exact ih w best h

/-- C5: `resolve_conflicts` either keeps the state untouched and returns
false, or returns true having replaced the chain by one that passes
`valid_chain` and has strictly greater cumulative work than the local
chain; the returned flag is true exactly when the chain changed. -/
theorem resolve_conflicts_fork_choice (c : Crypto) (st : NodeState)
    (responses : List (Option (List Block))) :
    (((resolveConflicts c st responses).1 = st
        ∧ (resolveConflicts c st responses).2 = false)
      ∨ ((resolveConflicts c st responses).2 = true
          ∧ validChain c (resolveConflicts c st responses).1.chain = true
          ∧ cumulativeWork st.chain
              < cumulativeWork (resolveConflicts c st responses).1.chain))
    ∧ ((resolveConflicts c st responses).2 = true
        ↔ (resolveConflicts c st responses).1.chain ≠ st.chain) := by
  have hinv := scanChains_inv c (cumulativeWork st.chain) responses
    (cumulativeWork st.chain) none (Or.inl ⟨rfl, rfl⟩)
  rcases hm : (scanChains c responses (cumulativeWork st.chain) none).2
    with _ | ch
  · unfold resolveConflicts
    rw [hm]
    dsimp only
    exact ⟨Or.inl ⟨rfl, rfl⟩, by simp⟩
  · rcases hinv with ⟨hno, _⟩ | ⟨ch2, hsome, hvalid, hwork, hlt⟩
    · rw [hm] at hno
      exact absurd hno (by simp)
    · rw [hm] at hsome
      have hch : ch2 = ch := by
        injection hsome with h
        exact h.symm
      subst hch
      have hlt2 : cumulativeWork st.chain < cumulativeWork ch2 := by
        rw [hwork]
        exact hlt
      have hne : ch2 ≠ st.chain := by
        intro e
        rw [e] at hlt2
        exact lt_irrefl _ hlt2
      unfold resolveConflicts
      rw [hm]
      dsimp only
      refine ⟨Or.inr ⟨rfl, hvalid, hlt2⟩, ?_⟩
      constructor
      · intro _
        exact hne
      · intro _
        rfl

theorem minfold_spec (vs : List (String × Submission)) :
    ∀ v : String × Submission,
      (vs.foldl (fun best q =>
          if q.2.output_hash < best.2.output_hash then q else best) v ∈ v :: vs)
      ∧ (∀ x ∈ v :: vs,
          (vs.foldl (fun best q =>
              if q.2.output_hash < best.2.output_hash then q else best)
            v).2.output_hash ≤ x.2.output_hash) := by
  induction vs with
  | nil =>
    intro v
    refine ⟨by simp, ?_⟩
    intro x hx
    have hxv : x = v := by
      simpa using hx
    rw [hxv]
    simp
  | cons p ps ih =>
    intro v
    rw [List.foldl_cons]
    by_cases hpv : p.2.output_hash < v.2.output_hash
    · rw [if_pos hpv]
      obtain ⟨hmem, hle⟩ := ih p
      refine ⟨List.mem_cons_of_mem _ hmem, ?_⟩
      intro x hx
      rcases List.mem_cons.mp hx with h1 | h2
      · rw [h1]
        exact le_trans (hle p (List.mem_cons_self p ps)) (le_of_lt hpv)
      · exact hle x h2
    · rw [if_neg hpv]
      obtain ⟨hmem, hle⟩ := ih v
      constructor
      · rcases List.mem_cons.mp hmem with h1 | h2
        · rw [h1]
          exact List.mem_cons_self v (p :: ps)
        · exact List.mem_cons_of_mem _ (List.mem_cons_of_mem _ h2)
      · intro x hx
        rcases List.mem_cons.mp hx with h1 | h2
        · rw [h1]
          exact hle v (List.mem_cons_self v ps)
        · rcases List.mem_cons.mp h2 with h3 | h4
          · rw [h3]
            exact le_trans (hle v (List.mem_cons_self v ps)) (le_of_not_lt hpv)
          · exact hle x (List.mem_cons_of_mem _ h4)

/-- C6: `elect_leader` keeps exactly the submissions whose signature
verifies against the seed and whose `output_hash` is the digest of the raw
signature; it sets `current_leader` to the candidate of the
lexicographically smallest valid `output_hash`, or to `None` when no
submission verifies. -/
theorem elect_leader_min_hash (c : Crypto) (seed : String)
    (subs : List (String × Submission)) (st : NodeState) :
    ((electLeaderUpd c seed subs st).current_leader = electLeader c seed subs)
    ∧ (∀ s : Submission, submissionValid c seed s = true ↔
        (c.verify s.public_key s.signature seed = true
          ∧ c.shaHex s.signature = s.output_hash))
    ∧ (∀ p : String × Submission,
        p ∈ validSubmissions c seed subs
          ↔ (p ∈ subs ∧ submissionValid c seed p.2 = true))
    ∧ ((validSubmissions c seed subs = [] ∧ electLeader c seed subs = none)
        ∨ (∃ p, p ∈ validSubmissions c seed subs
            ∧ electLeader c seed subs = some p.1
            ∧ ∀ q ∈ validSubmissions c seed subs,
                p.2.output_hash ≤ q.2.output_hash)) := by
  refine ⟨rfl, ?_, ?_, ?_⟩
  · intro s
    unfold submissionValid
    simp [Bool.and_eq_true, beq_iff_eq]
  · intro p
    unfold validSubmissions
    exact List.mem_filter
  · rcases hV : validSubmissions c seed subs with _ | ⟨v, vs⟩
    · left
      refine ⟨rfl, ?_⟩
      unfold electLeader
      rw [hV]
      rfl
    · right
      obtain ⟨hmem, hle⟩ := minfold_spec vs v
      refine ⟨vs.foldl (fun best q =>
          if q.2.output_hash < best.2.output_hash then q else best) v,
        hmem, ?_, hle⟩
      unfold electLeader
      rw [hV]
      rfl

/-- C2: evaluation of `new_block` at a quorum failure — leader `A`, one
peer voting reject (approvals 1, quorum 2).  No block is appended, the
difficulty is unchanged, and the pool's entry is kept — but its `status`
has been flipped to `"success"` in place ( `list.copy()` in `new_block` is
shallow, so the marking of step 1 reaches the pool's own dicts), unlike
the pool-remains-pending abort the spec describes. -/
theorem new_block_quorum_failure_marks_pool :
    (newBlock sampleCrypto leaderState 5 none (fun _ => some "reject")
        100 true).2 = none
    ∧ (newBlock sampleCrypto leaderState 5 none (fun _ => some "reject")
        100 true).1.chain = leaderState.chain
    ∧ (newBlock sampleCrypto leaderState 5 none (fun _ => some "reject")
        100 true).1.difficulty = leaderState.difficulty
    ∧ (newBlock sampleCrypto leaderState 5 none (fun _ => some "reject")
        100 true).1.current_transactions
        = [{ sampleTx with status := "success" }]
    ∧ leaderState.current_transactions = [sampleTx]
    ∧ sampleTx.status = "pending" := by
  decide

/-- C4: evaluation of the dispatcher's `NEW_TRANSACTION` branch — it drops
the incoming transaction's `id` and calls `new_transaction` with only
sender/recipient/amount, so each delivery mints a fresh UUID; delivering
the same message twice yields a two-entry pool instead of the one-entry
pool of a single delivery. -/
theorem gossip_ingest_not_idempotent :
    (handleNewTransaction (handleNewTransaction (initState sampleCrypto)
        sampleTx "u1") sampleTx "u2").current_transactions.map Tx.id
      = ["u1", "u2"]
    ∧ (handleNewTransaction (initState sampleCrypto) sampleTx "u1").current_transactions.map Tx.id
      = ["u1"]
    ∧ ¬ (handleNewTransaction (handleNewTransaction (initState sampleCrypto)
          sampleTx "u1") sampleTx "u2").current_transactions
        = (handleNewTransaction (initState sampleCrypto) sampleTx "u1").current_transactions := by
  decide

/-- C3: evaluation of the dispatcher at a `BLOCK_PROPOSE` request — the
dispatcher of `network.py` has no `BLOCK_PROPOSE` branch, so the request
falls through to the unknown-type reply, which carries no `vote` key at
all (neither `approve` nor `reject`); consequently the leader, reading the
`vote` field of such replies, counts no peer approval and a two-node
cluster can never commit a proposed block. -/
theorem block_propose_unhandled :
    dispatchBranch "BLOCK_PROPOSE" = DispatchBranch.unknown
    ∧ replyKeys (dispatchBranch "BLOCK_PROPOSE") = ["status", "message"]
    ∧ ¬ ("vote" ∈ replyKeys (dispatchBranch "BLOCK_PROPOSE"))
    ∧ (proposeBlock sampleCrypto leaderState fastBlock (fun _ => none)).result
        = none
    ∧ (proposeBlock sampleCrypto leaderState fastBlock (fun _ => none)).state
        = leaderState := by
  decide

/-- C7: evaluation showing `seen_transactions` is never populated: it is
empty at boot, still empty after a transaction is admitted to the pool,
and still empty after a block committing that pool — no code path ever
inserts into it. -/
theorem seen_transactions_never_updated :
    (initState sampleCrypto).seen_transactions = []
    ∧ (newTransaction (initState sampleCrypto) "alice" "bob" 7 "t1" none
        true).state.current_transactions.map Tx.id = ["t1"]
    ∧ (newTransaction (initState sampleCrypto) "alice" "bob" 7 "t1" none
        true).state.seen_transactions = []
    ∧ (proposeBlock sampleCrypto leaderState fastBlock
        (fun _ => some "approve")).state.seen_transactions = [] := by
  decide

end BC
